import Mathlib

/- Shallow embedding of the AngelOne support-site crawler
   (src/backend/chatbot/web_crawler.py).  Python strings are modelled as
   lists of characters.  A Python `None` flowing through a string-typed
   variable is modelled by the empty list where noted.  The external
   collaborators (the HTTP session, Selenium, BeautifulSoup selector
   matching, html2text) are modelled as an environment record: for each
   URL it tells us whether the static fetch raises, which absolute link
   targets the page's anchors resolve to (urljoin is folded into the
   environment), the page title, the html2text output of the selected
   content region, and the rendered (Selenium) text. -/

abbrev Str := List Char

/-- Control characters removed by CPython `urllib.parse` before splitting. -/
def ctlChar (c : Char) : Bool := c == '\t' || c == '\n' || c == '\r'

def stripCtl (u : Str) : Str := u.filter (fun c => !ctlChar c)

/-- Valid scheme characters per urllib: letters, digits, `+`, `-`, `.`. -/
def schemeChar (c : Char) : Bool := c.isAlphanum || c == '+' || c == '-' || c == '.'

def strToLower (s : Str) : Str := s.map Char.toLower

/-- Split a list at the first occurrence of `c` (Python `str.split(c, 1)`). -/
def splitOnFirst (c : Char) : Str → Option (Str × Str)
  | [] => none
  | x :: xs =>
    if x = c then some ([], xs)
    else match splitOnFirst c xs with
      | none => none
      | some (a, b) => some (x :: a, b)

def splitOnLast (c : Char) (u : Str) : Option (Str × Str) :=
  match splitOnFirst c u.reverse with
  | none => none
  | some (a, b) => some (b.reverse, a.reverse)

/-- urllib: `scheme, url = url[:i].lower(), url[i+1:]` when the prefix before
the first `:` is nonempty, starts with an ASCII letter, and its remaining
characters are scheme characters; otherwise the scheme is empty. -/
def parseScheme (u : Str) : Str × Str :=
  match splitOnFirst ':' u with
  | none => ([], u)
  | some (pre, post) =>
    if pre.head?.any Char.isAlpha && (pre.drop 1).all schemeChar
    then (strToLower pre, post)
    else ([], u)

def netlocDelim (c : Char) : Bool := c == '/' || c == '?' || c == '#'

/-- urllib `_splitnetloc`: after a leading `//`, the netloc runs up to the
first of `/`, `?`, `#`.  (The IPv6-bracket `ValueError` and the
`_checknetloc` unicode check are not modelled; all inputs of interest are
ASCII without brackets.) -/
def parseNetloc (u : Str) : Str × Str :=
  match u with
  | '/' :: '/' :: rest =>
    (rest.takeWhile (fun c => !netlocDelim c), rest.dropWhile (fun c => !netlocDelim c))
  | _ => ([], u)

def splitFragment (u : Str) : Str × Str :=
  match splitOnFirst '#' u with
  | some (a, b) => (a, b)
  | none => (u, [])

def splitQuery (u : Str) : Str × Str :=
  match splitOnFirst '?' u with
  | some (a, b) => (a, b)
  | none => (u, [])

/-- urllib `_splitparams`: split `;params` off the last path segment. -/
def splitParams (u : Str) : Str × Str :=
  if u.contains '/' then
    match splitOnLast '/' u with
    | some (pre, post) =>
      match splitOnFirst ';' post with
      | some (a, b) => (pre ++ '/' :: a, b)
      | none => (u, [])
    | none => (u, [])
  else
    match splitOnFirst ';' u with
    | some (a, b) => (a, b)
    | none => (u, [])

/-- urllib `uses_params`. -/
def usesParams : List Str :=
  [[], "ftp".data, "hdl".data, "prospero".data, "http".data, "imap".data,
   "https".data, "shttp".data, "rtsp".data, "rtspu".data, "sip".data,
   "sips".data, "mms".data, "sftp".data, "tel".data]

structure UrlParts where
  scheme : Str
  netloc : Str
  path : Str
  params : Str
  query : Str
  fragment : Str
deriving DecidableEq, Repr

/-- `urllib.parse.urlparse`: strip unsafe bytes, split scheme, netloc,
fragment (first `#`), query (first `?`), then params for the relevant
schemes. -/
def urlparse (url : Str) : UrlParts :=
  let u0 := stripCtl url
  let su := parseScheme u0
  let nu := parseNetloc su.2
  let uf := splitFragment nu.2
  let uq := splitQuery uf.1
  let pp :=
    if usesParams.contains su.1 && uq.1.contains ';' then splitParams uq.1
    else (uq.1, [])
  ⟨su.1, nu.1, pp.1, pp.2, uq.2, uf.2⟩

/-- `normalize_url` body on a non-falsy input (web_crawler.py lines 57-65):
rebuild `f"{scheme}://{netloc}{path}"`, then drop one trailing `'/'` when the
whole string ends with `'/'` and is longer than one character. -/
def normCore (url : Str) : Str :=
  let p := urlparse url
  let normalized := p.scheme ++ ':' :: '/' :: '/' :: (p.netloc ++ p.path)
  if normalized.getLast? = some '/' ∧ 1 < normalized.length then
    normalized.dropLast
  else normalized

/-- `normalize_url` (web_crawler.py lines 52-65); `none` models Python `None`,
returned exactly for a falsy (empty) input. -/
def normalize_url (url : Str) : Option Str :=
  if url = [] then none else some (normCore url)

/-- The normalized value as it flows onward in the crawler; `[]` stands for
the Python `None` that `normalize_url` returns on a falsy input. -/
def normOf (url : Str) : Str :=
  match normalize_url url with
  | some v => v
  | none => []

/-- One trailing slash removed, as the trailing-slash rule acts on the path
component of a URL that has a nonempty host. -/
def stripSlash (p : Str) : Str :=
  if p.getLast? = some '/' then p.dropLast else p

structure PageRecord where
  url : Str
  title : Str
  content : Str
  content_length : Nat
  source_type : Str
  timestamp : Nat
deriving DecidableEq, Repr

structure CrawlState where
  url_queue : List Str
  visited_urls : List Str
  scraped_data : List PageRecord
  failed_urls : List Str
  scraped_count : Nat
deriving DecidableEq, Repr

/-- What the external collaborators do for each URL.  `fetch u = none`
models an exception raised while fetching/parsing `u` (timeout, non-2xx,
network error, malformed document).  On success, `hrefs` are the anchor
targets already resolved against the page URL (`urljoin` is an external
collaborator), `title` the document title, and `rawContent` the html2text
output of the content region chosen by the selector cascade (or of `body`,
or `[]` when neither exists).  `renderedText u` is the html2text output of
the rendered (Selenium) DOM's chosen region, `[]` when rendering fails.
`now` models `time.time()` as a constant capture timestamp. -/
structure PageFetch where
  hrefs : List Str
  title : Str
  rawContent : Str
deriving DecidableEq, Repr

structure CrawlEnv where
  fetch : Str → Option PageFetch
  renderedText : Str → Str
  hasDriver : Bool
  now : Nat

def isPySpace (c : Char) : Bool :=
  c == ' ' || c == '\t' || c == '\n' || c == '\r' ||
  c == Char.ofNat 11 || c == Char.ofNat 12

/-- Python `str.strip()` (ASCII whitespace). -/
def pyStrip (s : Str) : Str :=
  ((s.dropWhile isPySpace).reverse.dropWhile isPySpace).reverse

/-- Python `str.split('\n')`. -/
def splitOnChar (c : Char) : Str → List Str
  | [] => [[]]
  | x :: xs =>
    match splitOnChar c xs with
    | [] => [[]]
    | h :: t => if x = c then [] :: h :: t else (x :: h) :: t

/-- `clean_text` (lines 302-315): split into lines, strip each line, keep
lines whose stripped form is nonempty and longer than 3 characters, rejoin
with newlines. -/
def clean_text (text : Str) : Str :=
  if text = [] then []
  else
    List.intercalate ['\n']
      (((splitOnChar '\n' text).map pyStrip).filter
        (fun line => !line.isEmpty && decide (3 < line.length)))

/-- `scrape_with_selenium` (lines 256-300): without a driver return `""`;
otherwise the cleaned text of the rendered page's selected region (its own
selector cascade and the exception path are folded into
`renderedText`, with `[]` standing for a failed render). -/
def scrape_with_selenium (env : CrawlEnv) (url : Str) : Str :=
  if env.hasDriver then clean_text (env.renderedText url) else []

/-- `is_support_url` (lines 67-83).  Note that besides the structural
host/path test it consults the crawl state: URLs already in
`visited_urls` or `failed_urls` are rejected. -/
def is_support_url (st : CrawlState) (url : Str) : Bool :=
  if url = [] then false
  else
    match normalize_url url with
    | none => false
    | some nu =>
      if nu ∈ st.visited_urls then false
      else
        (urlparse nu).netloc == "www.angelone.in".data
          && "/support".data.isPrefixOf (urlparse nu).path
          && !(st.failed_urls.contains nu)

/-- `extract_support_links_from_page` (lines 169-181): normalize each
resolved anchor target and keep it when `is_support_url` accepts it; the
Python `set` is modelled as first-occurrence deduplication. -/
def harvestLinks (st : CrawlState) : List Str → List Str → List Str
  | [], acc => acc
  | href :: rest, acc =>
    match normalize_url href with
    | none => harvestLinks st rest acc
    | some nu =>
      if is_support_url st nu && !(acc.contains nu) then
        harvestLinks st rest (acc ++ [nu])
      else harvestLinks st rest acc

/-- Lines 195-197: append each harvested link that is neither visited nor
already present in the queue (queue entries compared after normalization). -/
def enqueueNew : CrawlState → List Str → CrawlState
  | st, [] => st
  | st, link :: rest =>
    enqueueNew
      (if !(st.visited_urls.contains link)
          && !((st.url_queue.map normalize_url).contains (some link)) then
        { st with url_queue := st.url_queue ++ [link] }
      else st)
      rest

def sourceTag : Str := "support_page".data

/-- The content text after the Selenium quality gate (lines 230-236): when
the cleaned static text is shorter than 200 characters and a driver is
available, use the rendered text instead if it is nonempty and strictly
longer. -/
def finalText (env : CrawlEnv) (url : Str) (pf : PageFetch) : Str :=
  let staticText := clean_text pf.rawContent
  if staticText.length < 200 && env.hasDriver then
    let sel := scrape_with_selenium env url
    if !sel.isEmpty && decide (staticText.length < sel.length) then sel
    else staticText
  else staticText

/-- `scrape_page_content` (lines 183-254).  On an exception (modelled as
`fetch url = none`) the URL is added to `failed_urls` and `none` is
returned.  On success the page's links are harvested and enqueued, and a
PageRecord is returned exactly when the final text is truthy and its
stripped length exceeds 50; otherwise (`Insufficient content`) `none` is
returned without touching `failed_urls`. -/
def scrape_page_content (env : CrawlEnv) (st : CrawlState) (url : Str) :
    CrawlState × Option PageRecord :=
  match env.fetch url with
  | none => ({ st with failed_urls := st.failed_urls.insert url }, none)
  | some pf =>
    let st' := enqueueNew st (harvestLinks st pf.hrefs [])
    let t := finalText env url pf
    if !t.isEmpty && decide (50 < (pyStrip t).length) then
      (st', some ⟨url, pf.title, t, t.length, sourceTag, env.now⟩)
    else (st', none)

/-- One iteration of the driver loop body (lines 345-364), assuming the
loop guard already held: pop, normalize, skip if visited, otherwise scrape
and always mark the normalized URL visited. -/
def crawlStep (env : CrawlEnv) (st : CrawlState) : CrawlState :=
  match st.url_queue with
  | [] => st
  | url :: rest =>
    let st1 := { st with url_queue := rest }
    let nu := normOf url
    if nu ∈ st1.visited_urls then st1
    else
      match scrape_page_content env st1 nu with
      | (st2, some r) =>
        { st2 with
          scraped_data := st2.scraped_data ++ [r]
          scraped_count := st2.scraped_count + 1
          visited_urls := st2.visited_urls.insert nu }
      | (st2, none) => { st2 with visited_urls := st2.visited_urls.insert nu }

/-- The driver loop `while self.url_queue and scraped_count < self.max_pages`
as a fuel-indexed recursion; `none` means the fuel ran out before the loop
exited on its own. -/
def crawlLoop (env : CrawlEnv) (maxPages : Nat) : Nat → CrawlState → Option CrawlState
  | 0, st =>
    if st.url_queue = [] ∨ maxPages ≤ st.scraped_count then some st else none
  | fuel + 1, st =>
    if st.url_queue = [] ∨ maxPages ≤ st.scraped_count then some st
    else crawlLoop env maxPages fuel (crawlStep env st)

/-- The state reached after at most `k` guarded iterations of the driver
loop; this is the iteration boundary at which an operator cancel
(KeyboardInterrupt) can stop the loop. -/
def crawlSteps (env : CrawlEnv) (maxPages : Nat) : Nat → CrawlState → CrawlState
  | 0, st => st
  | k + 1, st =>
    if st.url_queue = [] ∨ maxPages ≤ st.scraped_count then st
    else crawlSteps env maxPages k (crawlStep env st)

/-- The loop starts from the queue produced by the discovery sweep and
initial dedup (lines 317-341), with all other collections empty. -/
def startState (q : List Str) : CrawlState := ⟨q, [], [], [], 0⟩

structure CrawlSummary where
  base_url : Str
  total_pages_scraped : Nat
  total_content_size : Nat
  failed_urls_count : Nat
  crawl_timestamp : Nat
  support_pages : List PageRecord
  failed_list : List Str
deriving DecidableEq, Repr

/-- `save_data` (lines 384-404), minus file I/O: the summary dictionary
built from whatever is in the crawl state. -/
def save_data (base : Str) (now : Nat) (st : CrawlState) : CrawlSummary :=
  ⟨base, st.scraped_data.length,
    (st.scraped_data.map (fun r => r.content.length)).sum,
    st.failed_urls.length, now, st.scraped_data, st.failed_urls⟩

/-- The crawl-run invariant maintained by the driver loop: output URLs are
distinct, every output URL is visited, and every failed URL is visited. -/
def CrawlInv (st : CrawlState) : Prop :=
  (st.scraped_data.map PageRecord.url).Nodup ∧
  (∀ r ∈ st.scraped_data, r.url ∈ st.visited_urls) ∧
  (∀ u ∈ st.failed_urls, u ∈ st.visited_urls)

/- Concrete fixtures used by counterexamples and witnesses. -/

def uSupport : Str := "https://www.angelone.in/support".data

def uFaq : Str := "https://www.angelone.in/support/faq".data

def uA : Str := "https://www.angelone.in/support/a".data

def uB : Str := "https://www.angelone.in/support/b".data

def uC : Str := "https://www.angelone.in/support/c".data

def uD : Str := "https://www.angelone.in/support/d".data

/-- 60 characters of content: passes the 50-character final gate. -/
def c60 : Str := List.replicate 60 'a'

/-- Exactly 50 characters of content: sits on the final-gate boundary. -/
def c50 : Str := List.replicate 50 'a'

/-- 150 characters of static content: below the 200-character quality gate. -/
def c150 : Str := List.replicate 150 'a'

/-- 400 characters of rendered content. -/
def c400 : Str := List.replicate 400 'b'

/-- An environment in which every fetch raises. -/
def envFail : CrawlEnv := ⟨fun _ => none, fun _ => [], false, 0⟩

/-- An environment in which every fetch succeeds with 60 characters of
content and no links; no rendering driver. -/
def envOk : CrawlEnv := ⟨fun _ => some ⟨[], [], c60⟩, fun _ => [], false, 0⟩

/-- An environment in which every fetch succeeds with exactly 50 characters
of content; no rendering driver. -/
def env50 : CrawlEnv := ⟨fun _ => some ⟨[], [], c50⟩, fun _ => [], false, 0⟩

/-- Static fetch result with 150 characters of content. -/
def pf150 : PageFetch := ⟨[], [], c150⟩

/-- An environment with a rendering driver: the static fetch yields 150
characters, the rendered fetch 400. -/
def env400 : CrawlEnv := ⟨fun _ => some pf150, fun _ => c400, true, 0⟩

/-- An environment in which `uB` fails to fetch and every other URL
succeeds with 60 characters of content. -/
def envC4 : CrawlEnv :=
  ⟨fun u => if u = uB then none else some ⟨[], [], c60⟩, fun _ => [], false, 0⟩

/-- The PageRecord produced for `uSupport` under `envOk`. -/
def rec60 : PageRecord := ⟨uSupport, [], c60, 60, sourceTag, 0⟩

/-- Final state of the two-fuel `envFail` run seeded with `uSupport`. -/
def stC1 : CrawlState := ⟨[], [uSupport], [], [uSupport], 0⟩

/-- Final state of the `envOk` run seeded with a duplicated `uSupport`. -/
def stC7 : CrawlState := ⟨[], [uSupport], [rec60], [], 1⟩

/-- State after one `envOk` iteration with `maxPages = 1` and a second URL
still in the frontier. -/
def stC5 : CrawlState := ⟨[uFaq], [uSupport], [rec60], [], 1⟩

/- ---------------------------------------------------------------------
   Well-formedness of URL components, and how `urlparse` decomposes a URL
   assembled from well-formed components.
--------------------------------------------------------------------- -/

/-- Characters allowed in a netloc for the decomposition lemmas: no
`/?#` (netloc delimiters) and no stripped control characters. -/
def netlocOk (c : Char) : Bool := !netlocDelim c && !ctlChar c

/-- Characters allowed in a path component: none of `#?;` and no stripped
control characters. -/
def pathOk (c : Char) : Bool := !(c == '#' || c == '?' || c == ';') && !ctlChar c

/-- Characters allowed in a query: no `#` and no stripped control chars. -/
def queryOk (c : Char) : Bool := !(c == '#') && !ctlChar c

/-- A scheme as urllib recognises one, already lowercase (as `https` is). -/
abbrev wfScheme (s : Str) : Prop :=
  s.head?.any Char.isAlpha = true ∧ s.all schemeChar = true ∧ strToLower s = s

abbrev wfNetloc (n : Str) : Prop := n ≠ [] ∧ n.all netlocOk = true

/-- A path is empty or starts with `/`, and avoids `#?;` and control chars. -/
abbrev wfPath (p : Str) : Prop :=
  p.head?.all (fun c => c == '/') = true ∧ p.all pathOk = true

abbrev wfQuery (q : Str) : Prop := q.all queryOk = true

abbrev wfFrag (f : Str) : Prop := f.all (fun c => !ctlChar c) = true

lemma all_mem_of_all {pr : Char → Bool} {l : Str} (h : l.all pr = true) :
    ∀ c ∈ l, pr c = true :=
  List.all_eq_true.mp h

lemma not_mem_of_pred_false {pr : Char → Bool} {l : Str} {c : Char}
    (h : l.all pr = true) (hc : pr c = false) : c ∉ l := by
  intro hm
  rw [all_mem_of_all h c hm] at hc
  cases hc

lemma schemeChar_not_ctl {c : Char} (h : schemeChar c = true) :
    ctlChar c = false := by
  rcases Bool.eq_false_or_eq_true (ctlChar c) with ht | hf
  · exfalso
    have : (c = '\t' ∨ c = '\n') ∨ c = '\r' := by simpa [ctlChar] using ht
    rcases this with (rfl | rfl) | rfl <;> exact absurd h (by decide)
  · exact hf

lemma splitOnFirst_append (c : Char) (a b : Str) (h : c ∉ a) :
    splitOnFirst c (a ++ c :: b) = some (a, b) := by
  induction a with
  | nil => simp [splitOnFirst]
  | cons x xs ih =>
    have hx : ¬x = c := fun e => h (by simp [e])
    have hxs : c ∉ xs := fun m => h (List.mem_cons_of_mem _ m)
    simp [splitOnFirst, hx, ih hxs]

lemma splitOnFirst_eq_none (c : Char) (l : Str) (h : c ∉ l) :
    splitOnFirst c l = none := by
  induction l with
  | nil => rfl
  | cons x xs ih =>
    have hx : ¬x = c := fun e => h (by simp [e])
    have hxs : c ∉ xs := fun m => h (List.mem_cons_of_mem _ m)
    simp [splitOnFirst, hx, ih hxs]

lemma takeWhile_append_eq (pr : Char → Bool) (n b : Str)
    (hn : ∀ x ∈ n, pr x = true) (hb : ∀ x, b.head? = some x → pr x = false) :
    (n ++ b).takeWhile pr = n := by
  induction n with
  | nil =>
    cases b with
    | nil => rfl
    | cons y ys => simp [List.takeWhile_cons, hb y rfl]
  | cons x xs ih =>
    simp only [List.cons_append, List.takeWhile_cons,
      hn x (List.mem_cons_self x xs)]
    rw [ih (fun z hz => hn z (List.mem_cons_of_mem _ hz))]
    simp

lemma dropWhile_append_eq (pr : Char → Bool) (n b : Str)
    (hn : ∀ x ∈ n, pr x = true) (hb : ∀ x, b.head? = some x → pr x = false) :
    (n ++ b).dropWhile pr = b := by
  induction n with
  | nil =>
    cases b with
    | nil => rfl
    | cons y ys => simp [List.dropWhile_cons, hb y rfl]
  | cons x xs ih =>
    simp only [List.cons_append, List.dropWhile_cons,
      hn x (List.mem_cons_self x xs), if_true]
    exact ih (fun z hz => hn z (List.mem_cons_of_mem _ hz))

lemma stripCtl_eq_self {u : Str} (h : ∀ c ∈ u, ctlChar c = false) :
    stripCtl u = u := by
  unfold stripCtl
  rw [List.filter_eq_self]
  intro a ha
  simp [h a ha]

lemma contains_eq_false_of_not_mem {l : Str} {c : Char} (h : c ∉ l) :
    l.contains c = false := by
  induction l with
  | nil => rfl
  | cons x xs ih =>
    have hx : ¬x = c := fun e => h (by simp [e])
    have hc : (c == x) = false := by
      rcases Bool.eq_false_or_eq_true (c == x) with ht | hf
      · exact absurd (beq_iff_eq.mp ht).symm hx
      · exact hf
    simp only [List.contains_cons, hc, Bool.false_or]
    exact ih (fun m => h (List.mem_cons_of_mem _ m))

lemma parseScheme_concat (s rest : Str) (h1 : s.head?.any Char.isAlpha = true)
    (h2 : s.all schemeChar = true) :
    parseScheme (s ++ ':' :: rest) = (strToLower s, rest) := by
  have hcol : ':' ∉ s := not_mem_of_pred_false h2 (by decide)
  unfold parseScheme
  rw [splitOnFirst_append ':' s rest hcol]
  have hdrop : (s.drop 1).all schemeChar = true := by
    rw [List.all_eq_true] at h2 ⊢
    exact fun c hc => h2 c (List.mem_of_mem_drop hc)
  have hcond : (s.head?.any Char.isAlpha && (s.drop 1).all schemeChar) = true := by
    rw [h1, hdrop]
    rfl
  show (if (s.head?.any Char.isAlpha && (s.drop 1).all schemeChar) = true
      then (strToLower s, rest) else ([], s ++ ':' :: rest)) = (strToLower s, rest)
  rw [if_pos hcond]

lemma parseNetloc_concat (n b : Str) (hn : n.all netlocOk = true)
    (hb : ∀ x, b.head? = some x → netlocDelim x = true) :
    parseNetloc ('/' :: '/' :: (n ++ b)) = (n, b) := by
  have hn' : ∀ x ∈ n, (!netlocDelim x) = true := by
    intro x hx
    have h := all_mem_of_all hn x hx
    simp only [netlocOk, Bool.and_eq_true] at h
    exact h.1
  have hb' : ∀ x, b.head? = some x → (!netlocDelim x) = false := by
    intro x hx
    simp [hb x hx]
  simp only [parseNetloc]
  rw [takeWhile_append_eq _ n b hn' hb', dropWhile_append_eq _ n b hn' hb']

lemma netlocOk_not_ctl {c : Char} (h : netlocOk c = true) : ctlChar c = false := by
  simp only [netlocOk, Bool.and_eq_true, Bool.not_eq_true'] at h
  exact h.2

lemma pathOk_not_ctl {c : Char} (h : pathOk c = true) : ctlChar c = false := by
  simp only [pathOk, Bool.and_eq_true, Bool.not_eq_true'] at h
  exact h.2

lemma queryOk_not_ctl {c : Char} (h : queryOk c = true) : ctlChar c = false := by
  simp only [queryOk, Bool.and_eq_true, Bool.not_eq_true'] at h
  exact h.2

lemma pathHead_delim {p : Str} (hp1 : p.head?.all (fun c => c == '/') = true) :
    ∀ x, p.head? = some x → netlocDelim x = true := by
  intro x hx
  cases p with
  | nil => cases hx
  | cons y ys =>
    have hy : (y == '/') = true := by simpa [Option.all] using hp1
    have hxy : y = x := by simpa using hx
    subst hxy
    rw [beq_iff_eq.mp hy]
    decide

lemma urlparse_concat (s n p : Str) (hs : wfScheme s) (hn : wfNetloc n)
    (hp : wfPath p) :
    urlparse (s ++ ':' :: '/' :: '/' :: (n ++ p)) =
      ⟨strToLower s, n, p, [], [], []⟩ := by
  obtain ⟨hs1, hs2, -⟩ := hs
  obtain ⟨-, hn2⟩ := hn
  obtain ⟨hp1, hp2⟩ := hp
  have hctl : ∀ c ∈ s ++ ':' :: '/' :: '/' :: (n ++ p), ctlChar c = false := by
    intro c hc
    rcases List.mem_append.mp hc with hcs | hc2
    · exact schemeChar_not_ctl (all_mem_of_all hs2 c hcs)
    · rcases List.mem_cons.mp hc2 with rfl | hc3
      · decide
      rcases List.mem_cons.mp hc3 with rfl | hc4
      · decide
      rcases List.mem_cons.mp hc4 with rfl | hc5
      · decide
      rcases List.mem_append.mp hc5 with hcn | hcp
      · exact netlocOk_not_ctl (all_mem_of_all hn2 c hcn)
      · exact pathOk_not_ctl (all_mem_of_all hp2 c hcp)
  have hstrip := stripCtl_eq_self hctl
  have hscheme := parseScheme_concat s ('/' :: '/' :: (n ++ p)) hs1 hs2
  have hnet := parseNetloc_concat n p hn2 (pathHead_delim hp1)
  have hfrag : splitFragment p = (p, []) := by
    unfold splitFragment
    rw [splitOnFirst_eq_none '#' p (not_mem_of_pred_false hp2 (by decide))]
  have hquery : splitQuery p = (p, []) := by
    unfold splitQuery
    rw [splitOnFirst_eq_none '?' p (not_mem_of_pred_false hp2 (by decide))]
  have hparams : p.contains ';' = false :=
    contains_eq_false_of_not_mem (not_mem_of_pred_false hp2 (by decide))
  simp only [urlparse, hstrip, hscheme, hnet, hfrag, hquery, hparams,
    Bool.and_false, Bool.false_eq_true, if_false]

lemma urlparse_concat_qf (s n p q f : Str) (hs : wfScheme s) (hn : wfNetloc n)
    (hp : wfPath p) (hq : wfQuery q) (hf : wfFrag f) :
    urlparse (s ++ ':' :: '/' :: '/' :: (n ++ (p ++ '?' :: (q ++ '#' :: f)))) =
      ⟨strToLower s, n, p, [], q, f⟩ := by
  obtain ⟨hs1, hs2, -⟩ := hs
  obtain ⟨-, hn2⟩ := hn
  obtain ⟨hp1, hp2⟩ := hp
  have hctl : ∀ c ∈ s ++ ':' :: '/' :: '/' ::
      (n ++ (p ++ '?' :: (q ++ '#' :: f))), ctlChar c = false := by
    intro c hc
    rcases List.mem_append.mp hc with hcs | hc2
    · exact schemeChar_not_ctl (all_mem_of_all hs2 c hcs)
    · rcases List.mem_cons.mp hc2 with rfl | hc3
      · decide
      rcases List.mem_cons.mp hc3 with rfl | hc4
      · decide
      rcases List.mem_cons.mp hc4 with rfl | hc5
      · decide
      rcases List.mem_append.mp hc5 with hcn | hc6
      · exact netlocOk_not_ctl (all_mem_of_all hn2 c hcn)
      rcases List.mem_append.mp hc6 with hcp | hc7
      · exact pathOk_not_ctl (all_mem_of_all hp2 c hcp)
      rcases List.mem_cons.mp hc7 with rfl | hc8
      · decide
      rcases List.mem_append.mp hc8 with hcq | hc9
      · exact queryOk_not_ctl (all_mem_of_all hq c hcq)
      rcases List.mem_cons.mp hc9 with rfl | hcf
      · decide
      · have h := all_mem_of_all hf c hcf
        simpa [Bool.not_eq_true'] using h
  have hstrip := stripCtl_eq_self hctl
  have hscheme := parseScheme_concat s
    ('/' :: '/' :: (n ++ (p ++ '?' :: (q ++ '#' :: f)))) hs1 hs2
  have hbhead : ∀ x, (p ++ '?' :: (q ++ '#' :: f)).head? = some x →
      netlocDelim x = true := by
    intro x hx
    cases p with
    | nil =>
      have hxy : '?' = x := by simpa using hx
      subst hxy
      decide
    | cons y ys =>
      have hy : (y == '/') = true := by simpa [Option.all] using hp1
      have hxy : y = x := by simpa using hx
      subst hxy
      rw [beq_iff_eq.mp hy]
      decide
  have hnet := parseNetloc_concat n (p ++ '?' :: (q ++ '#' :: f)) hn2 hbhead
  have hfrag : splitFragment (p ++ '?' :: (q ++ '#' :: f)) =
      (p ++ '?' :: q, f) := by
    have hre : p ++ '?' :: (q ++ '#' :: f) = (p ++ '?' :: q) ++ '#' :: f := by
      simp
    have hnm : '#' ∉ p ++ '?' :: q := by
      intro hm
      rcases List.mem_append.mp hm with hmp | hm2
      · exact absurd (all_mem_of_all hp2 _ hmp) (by decide)
      rcases List.mem_cons.mp hm2 with he | hmq
      · cases he
      · exact absurd (all_mem_of_all hq _ hmq) (by decide)
    unfold splitFragment
    rw [hre, splitOnFirst_append '#' (p ++ '?' :: q) f hnm]
  have hquery : splitQuery (p ++ '?' :: q) = (p, q) := by
    unfold splitQuery
    rw [splitOnFirst_append '?' p q (not_mem_of_pred_false hp2 (by decide))]
  have hparams : p.contains ';' = false :=
    contains_eq_false_of_not_mem (not_mem_of_pred_false hp2 (by decide))
  simp only [urlparse, hstrip, hscheme, hnet, hfrag, hquery, hparams,
    Bool.and_false, Bool.false_eq_true, if_false]

lemma dropLast_append_ne_nil (a : Str) {p : Str} (hp : p ≠ []) :
    (a ++ p).dropLast = a ++ p.dropLast := by
  induction a with
  | nil => rfl
  | cons x xs ih =>
    have hne : xs ++ p ≠ [] := by
      intro he
      exact hp (List.append_eq_nil.mp he).2
    cases hxp : xs ++ p with
    | nil => exact absurd hxp hne
    | cons y ys =>
      calc ((x :: xs) ++ p).dropLast
          = (x :: (y :: ys)).dropLast := by rw [List.cons_append, hxp]
        _ = x :: (y :: ys).dropLast := rfl
        _ = x :: (xs ++ p).dropLast := by rw [hxp]
        _ = x :: (xs ++ p.dropLast) := by rw [ih]
        _ = (x :: xs) ++ p.dropLast := rfl

lemma mem_of_getLast?_eq {l : Str} {c : Char} (h : l.getLast? = some c) :
    c ∈ l := by
  rcases List.mem_getLast?_eq_getLast h with ⟨hne, rfl⟩
  exact List.getLast_mem hne

/-- The trailing-slash rule of `normCore` seen through a decomposed URL:
with a nonempty slash-free host, the rule acts exactly on the path. -/
lemma normCore_parts (u s' n p : Str) {pa qu fr : Str}
    (hparse : urlparse u = ⟨s', n, p, pa, qu, fr⟩)
    (hn : wfNetloc n) :
    normCore u = s' ++ ':' :: '/' :: '/' :: (n ++ stripSlash p) := by
  obtain ⟨hn1, hn2⟩ := hn
  have hnp : n ++ p ≠ [] := fun he => hn1 (List.append_eq_nil.mp he).1
  have hgl : (s' ++ ':' :: '/' :: '/' :: (n ++ p)).getLast? =
      (n ++ p).getLast? := by
    rw [List.getLast?_append_of_ne_nil s' (by simp)]
    show ([':', '/', '/'] ++ (n ++ p)).getLast? = (n ++ p).getLast?
    rw [List.getLast?_append_of_ne_nil _ hnp]
  simp only [normCore, hparse]
  show (if (s' ++ ':' :: '/' :: '/' :: (n ++ p)).getLast? = some '/' ∧
        1 < (s' ++ ':' :: '/' :: '/' :: (n ++ p)).length
      then (s' ++ ':' :: '/' :: '/' :: (n ++ p)).dropLast
      else s' ++ ':' :: '/' :: '/' :: (n ++ p))
    = s' ++ ':' :: '/' :: '/' :: (n ++ stripSlash p)
  by_cases hsl : p.getLast? = some '/'
  · have hpne : p ≠ [] := by
      intro he
      rw [he] at hsl
      cases hsl
    have hc1 : (s' ++ ':' :: '/' :: '/' :: (n ++ p)).getLast? = some '/' := by
      rw [hgl, List.getLast?_append_of_ne_nil n hpne, hsl]
    have hc2 : 1 < (s' ++ ':' :: '/' :: '/' :: (n ++ p)).length := by
      simp [List.length_append]
      omega
    rw [if_pos ⟨hc1, hc2⟩]
    have hre : s' ++ ':' :: '/' :: '/' :: (n ++ p) =
        (s' ++ ':' :: '/' :: '/' :: n) ++ p := by simp
    rw [hre, dropLast_append_ne_nil _ hpne]
    simp [stripSlash, hsl]
  · rw [if_neg]
    · simp [stripSlash, hsl]
    · intro hcond
      have h1 := hcond.1
      rw [hgl] at h1
      cases hpe : p with
      | nil =>
        rw [hpe] at h1
        simp only [List.append_nil] at h1
        have hmem := mem_of_getLast?_eq h1
        exact absurd (all_mem_of_all hn2 _ hmem) (by decide)
      | cons y ys =>
        have hpne : p ≠ [] := by
          rw [hpe]
          simp
        rw [List.getLast?_append_of_ne_nil n hpne] at h1
        exact hsl h1

lemma normCore_concat (s n p : Str) (hs : wfScheme s) (hn : wfNetloc n)
    (hp : wfPath p) :
    normCore (s ++ ':' :: '/' :: '/' :: (n ++ p)) =
      strToLower s ++ ':' :: '/' :: '/' :: (n ++ stripSlash p) :=
  normCore_parts _ _ _ _ (urlparse_concat s n p hs hn hp) hn

lemma normCore_concat_qf (s n p q f : Str) (hs : wfScheme s) (hn : wfNetloc n)
    (hp : wfPath p) (hq : wfQuery q) (hf : wfFrag f) :
    normCore (s ++ ':' :: '/' :: '/' :: (n ++ (p ++ '?' :: (q ++ '#' :: f)))) =
      strToLower s ++ ':' :: '/' :: '/' :: (n ++ stripSlash p) :=
  normCore_parts _ _ _ _ (urlparse_concat_qf s n p q f hs hn hp hq hf) hn

lemma concat_ne_nil (s n p : Str) : s ++ ':' :: '/' :: '/' :: (n ++ p) ≠ [] := by
  simp

/- ---------------------------------------------------------------------
   Structural lemmas about the crawl loop.
--------------------------------------------------------------------- -/

lemma enqueueNew_visited : ∀ (links : List Str) (st : CrawlState),
    (enqueueNew st links).visited_urls = st.visited_urls := by
  intro links
  induction links with
  | nil => intro st; rfl
  | cons l ls ih =>
    intro st
    simp only [enqueueNew]
    rw [ih]
    split <;> rfl

lemma enqueueNew_data : ∀ (links : List Str) (st : CrawlState),
    (enqueueNew st links).scraped_data = st.scraped_data := by
  intro links
  induction links with
  | nil => intro st; rfl
  | cons l ls ih =>
    intro st
    simp only [enqueueNew]
    rw [ih]
    split <;> rfl

lemma enqueueNew_failed : ∀ (links : List Str) (st : CrawlState),
    (enqueueNew st links).failed_urls = st.failed_urls := by
  intro links
  induction links with
  | nil => intro st; rfl
  | cons l ls ih =>
    intro st
    simp only [enqueueNew]
    rw [ih]
    split <;> rfl

lemma enqueueNew_count : ∀ (links : List Str) (st : CrawlState),
    (enqueueNew st links).scraped_count = st.scraped_count := by
  intro links
  induction links with
  | nil => intro st; rfl
  | cons l ls ih =>
    intro st
    simp only [enqueueNew]
    rw [ih]
    split <;> rfl

lemma scrape_fetch_none (env : CrawlEnv) (st : CrawlState) (url : Str)
    (h : env.fetch url = none) :
    scrape_page_content env st url =
      ({ st with failed_urls := st.failed_urls.insert url }, none) := by
  simp [scrape_page_content, h]

lemma scrape_fetch_some (env : CrawlEnv) (st : CrawlState) (url : Str)
    (pf : PageFetch) (h : env.fetch url = some pf) :
    scrape_page_content env st url =
      (if !(finalText env url pf).isEmpty &&
          decide (50 < (pyStrip (finalText env url pf)).length) then
        (enqueueNew st (harvestLinks st pf.hrefs []),
         some ⟨url, pf.title, finalText env url pf,
               (finalText env url pf).length, sourceTag, env.now⟩)
      else (enqueueNew st (harvestLinks st pf.hrefs []), none)) := by
  simp [scrape_page_content, h]

lemma scrape_visited (env : CrawlEnv) (st : CrawlState) (url : Str) :
    (scrape_page_content env st url).1.visited_urls = st.visited_urls := by
  rcases hf : env.fetch url with _ | pf
  · rw [scrape_fetch_none env st url hf]
  · rw [scrape_fetch_some env st url pf hf]
    split <;> exact enqueueNew_visited _ _

lemma scrape_data (env : CrawlEnv) (st : CrawlState) (url : Str) :
    (scrape_page_content env st url).1.scraped_data = st.scraped_data := by
  rcases hf : env.fetch url with _ | pf
  · rw [scrape_fetch_none env st url hf]
  · rw [scrape_fetch_some env st url pf hf]
    split <;> exact enqueueNew_data _ _

lemma scrape_count (env : CrawlEnv) (st : CrawlState) (url : Str) :
    (scrape_page_content env st url).1.scraped_count = st.scraped_count := by
  rcases hf : env.fetch url with _ | pf
  · rw [scrape_fetch_none env st url hf]
  · rw [scrape_fetch_some env st url pf hf]
    split <;> exact enqueueNew_count _ _

lemma scrape_failed_sub (env : CrawlEnv) (st : CrawlState) (url : Str) :
    ∀ u ∈ (scrape_page_content env st url).1.failed_urls,
      u = url ∨ u ∈ st.failed_urls := by
  intro u hu
  rcases hf : env.fetch url with _ | pf
  · rw [scrape_fetch_none env st url hf] at hu
    simpa using List.mem_insert_iff.mp hu
  · rw [scrape_fetch_some env st url pf hf] at hu
    right
    rcases Bool.eq_false_or_eq_true
        (!(finalText env url pf).isEmpty &&
          decide (50 < (pyStrip (finalText env url pf)).length)) with hc | hc
    · rw [if_pos hc] at hu
      rwa [enqueueNew_failed] at hu
    · rw [if_neg (by simp [hc])] at hu
      rwa [enqueueNew_failed] at hu

lemma scrape_some_spec (env : CrawlEnv) (st : CrawlState) (url : Str)
    {st2 : CrawlState} {r : PageRecord}
    (h : scrape_page_content env st url = (st2, some r)) :
    r.url = url ∧ st2.failed_urls = st.failed_urls := by
  rcases hf : env.fetch url with _ | pf
  · rw [scrape_fetch_none env st url hf] at h
    simp at h
  · rw [scrape_fetch_some env st url pf hf] at h
    rcases Bool.eq_false_or_eq_true
        (!(finalText env url pf).isEmpty &&
          decide (50 < (pyStrip (finalText env url pf)).length)) with hc | hc
    · rw [if_pos hc] at h
      have h1 := congrArg Prod.fst h
      have h2 := congrArg Prod.snd h
      simp at h1 h2
      constructor
      · rw [← h2]
      · rw [← h1, enqueueNew_failed]
    · rw [if_neg (by simp [hc])] at h
      simp at h
lemma crawlInv_start (q : List Str) : CrawlInv (startState q) := by
  refine ⟨by simp [startState], ?_, ?_⟩ <;> simp [startState]

lemma crawlStep_inv (env : CrawlEnv) (st : CrawlState) (h : CrawlInv st) :
    CrawlInv (crawlStep env st) := by
  obtain ⟨h1, h2, h3⟩ := h
  cases hq : st.url_queue with
  | nil => simpa [crawlStep, hq] using ⟨h1, h2, h3⟩
  | cons url rest =>
    simp only [crawlStep, hq]
    by_cases hv : normOf url ∈ st.visited_urls
    · rw [if_pos (by simpa using hv)]
      exact ⟨h1, h2, h3⟩
    · rw [if_neg (by simpa using hv)]
      rcases hs : scrape_page_content env { st with url_queue := rest }
          (normOf url) with ⟨st2, r?⟩
      have hv2 : st2.visited_urls = st.visited_urls := by
        have hx := scrape_visited env { st with url_queue := rest } (normOf url)
        rw [hs] at hx
        exact hx
      have hd2 : st2.scraped_data = st.scraped_data := by
        have hx := scrape_data env { st with url_queue := rest } (normOf url)
        rw [hs] at hx
        exact hx
      have hf2 : ∀ u ∈ st2.failed_urls, u = normOf url ∨ u ∈ st.failed_urls := by
        intro u hu
        have hx := scrape_failed_sub env { st with url_queue := rest }
          (normOf url) u
        rw [hs] at hx
        exact hx hu
      cases r? with
      | none =>
        refine ⟨by simpa [hd2] using h1, ?_, ?_⟩
        · intro r hr
          rw [hd2] at hr
          exact List.mem_insert_iff.mpr (Or.inr (by rw [hv2]; exact h2 r hr))
        · intro u hu
          rcases hf2 u hu with rfl | hu'
          · exact List.mem_insert_iff.mpr (Or.inl rfl)
          · exact List.mem_insert_iff.mpr (Or.inr (by rw [hv2]; exact h3 u hu'))
      | some r =>
        have hr := scrape_some_spec env { st with url_queue := rest }
          (normOf url) hs
        refine ⟨?_, ?_, ?_⟩
        · show ((st2.scraped_data ++ [r]).map PageRecord.url).Nodup
          rw [hd2, List.map_append, List.nodup_append]
          refine ⟨h1, by simp, ?_⟩
          intro x hx
          simp only [List.map_cons, List.map_nil, List.mem_cons,
            List.not_mem_nil, or_false]
          intro he
          subst he
          rcases List.mem_map.mp hx with ⟨r', hr', hru⟩
          have hvv : r.url ∈ st.visited_urls := by
            rw [← hru]
            exact h2 r' hr'
          rw [hr.1] at hvv
          exact hv hvv
        · intro r' hr'
          rcases List.mem_append.mp hr' with hin | hsing
          · rw [hd2] at hin
            exact List.mem_insert_iff.mpr (Or.inr (by rw [hv2]; exact h2 r' hin))
          · have he : r' = r := by simpa using hsing
            subst he
            rw [hr.1]
            exact List.mem_insert_iff.mpr (Or.inl rfl)
        · intro u hu
          rcases hf2 u hu with rfl | hu'
          · exact List.mem_insert_iff.mpr (Or.inl rfl)
          · exact List.mem_insert_iff.mpr (Or.inr (by rw [hv2]; exact h3 u hu'))

lemma crawlLoop_inv (env : CrawlEnv) (mp : Nat) :
    ∀ (fuel : Nat) (st st' : CrawlState), CrawlInv st →
      crawlLoop env mp fuel st = some st' → CrawlInv st' := by
  intro fuel
  induction fuel with
  | zero =>
    intro st st' h hrun
    simp only [crawlLoop] at hrun
    split at hrun
    · cases hrun
      exact h
    · cases hrun
  | succ k ih =>
    intro st st' h hrun
    simp only [crawlLoop] at hrun
    split at hrun
    · cases hrun
      exact h
    · exact ih _ _ (crawlStep_inv env st h) hrun

lemma crawlSteps_inv (env : CrawlEnv) (mp : Nat) :
    ∀ (k : Nat) (st : CrawlState), CrawlInv st →
      CrawlInv (crawlSteps env mp k st) := by
  intro k
  induction k with
  | zero => intro st h; exact h
  | succ k ih =>
    intro st h
    simp only [crawlSteps]
    split
    · exact h
    · exact ih _ (crawlStep_inv env st h)

lemma crawlStep_count_data (env : CrawlEnv) (st : CrawlState) :
    ((crawlStep env st).scraped_count = st.scraped_count ∧
     (crawlStep env st).scraped_data = st.scraped_data) ∨
    (∃ r, (crawlStep env st).scraped_count = st.scraped_count + 1 ∧
          (crawlStep env st).scraped_data = st.scraped_data ++ [r]) := by
  cases hq : st.url_queue with
  | nil =>
    left
    constructor <;> simp [crawlStep, hq]
  | cons url rest =>
    simp only [crawlStep, hq]
    by_cases hv : normOf url ∈ st.visited_urls
    · left
      rw [if_pos (by simpa using hv)]
      exact ⟨rfl, rfl⟩
    · rw [if_neg (by simpa using hv)]
      rcases hs : scrape_page_content env { st with url_queue := rest }
          (normOf url) with ⟨st2, r?⟩
      have hc := scrape_count env { st with url_queue := rest } (normOf url)
      have hd := scrape_data env { st with url_queue := rest } (normOf url)
      rw [hs] at hc hd
      cases r? with
      | none => exact Or.inl ⟨hc, hd⟩
      | some r => exact Or.inr ⟨r, by simpa using hc, by simpa using hd⟩

lemma crawlLoop_exit : ∀ (fuel : Nat) (env : CrawlEnv) (mp : Nat)
    (st st' : CrawlState), crawlLoop env mp fuel st = some st' →
    st'.url_queue = [] ∨ mp ≤ st'.scraped_count := by
  intro fuel
  induction fuel with
  | zero =>
    intro env mp st st' h
    simp only [crawlLoop] at h
    by_cases hc : st.url_queue = [] ∨ mp ≤ st.scraped_count
    · rw [if_pos hc] at h
      cases h
      exact hc
    · rw [if_neg hc] at h
      cases h
  | succ k ih =>
    intro env mp st st' h
    simp only [crawlLoop] at h
    by_cases hc : st.url_queue = [] ∨ mp ≤ st.scraped_count
    · rw [if_pos hc] at h
      cases h
      exact hc
    · rw [if_neg hc] at h
      exact ih env mp _ st' h

lemma crawlLoop_count_le : ∀ (fuel : Nat) (env : CrawlEnv) (mp : Nat)
    (st st' : CrawlState), st.scraped_count ≤ mp →
    crawlLoop env mp fuel st = some st' → st'.scraped_count ≤ mp := by
  intro fuel
  induction fuel with
  | zero =>
    intro env mp st st' hle h
    simp only [crawlLoop] at h
    by_cases hc : st.url_queue = [] ∨ mp ≤ st.scraped_count
    · rw [if_pos hc] at h
      cases h
      exact hle
    · rw [if_neg hc] at h
      cases h
  | succ k ih =>
    intro env mp st st' hle h
    simp only [crawlLoop] at h
    by_cases hc : st.url_queue = [] ∨ mp ≤ st.scraped_count
    · rw [if_pos hc] at h
      cases h
      exact hle
    · rw [if_neg hc] at h
      have hlt : st.scraped_count < mp :=
        Nat.lt_of_not_le (fun hx => hc (Or.inr hx))
      have hstep : (crawlStep env st).scraped_count ≤ mp := by
        rcases crawlStep_count_data env st with ⟨h1, -⟩ | ⟨r, h1, -⟩
        · rw [h1]
          exact hle
        · rw [h1]
          omega
      exact ih env mp _ st' hstep h

lemma crawlLoop_count_eq_data : ∀ (fuel : Nat) (env : CrawlEnv) (mp : Nat)
    (st st' : CrawlState), st.scraped_count = st.scraped_data.length →
    crawlLoop env mp fuel st = some st' →
    st'.scraped_count = st'.scraped_data.length := by
  intro fuel
  induction fuel with
  | zero =>
    intro env mp st st' hcd h
    simp only [crawlLoop] at h
    by_cases hc : st.url_queue = [] ∨ mp ≤ st.scraped_count
    · rw [if_pos hc] at h
      cases h
      exact hcd
    · rw [if_neg hc] at h
      cases h
  | succ k ih =>
    intro env mp st st' hcd h
    simp only [crawlLoop] at h
    by_cases hc : st.url_queue = [] ∨ mp ≤ st.scraped_count
    · rw [if_pos hc] at h
      cases h
      exact hcd
    · rw [if_neg hc] at h
      have hstep : (crawlStep env st).scraped_count =
          (crawlStep env st).scraped_data.length := by
        rcases crawlStep_count_data env st with ⟨h1, h2⟩ | ⟨r, h1, h2⟩
        · rw [h1, h2]
          exact hcd
        · rw [h1, h2]
          simp [hcd]
      exact ih env mp _ st' hstep h

lemma crawlLoop_empty (env : CrawlEnv) (mp : Nat) (fuel : Nat)
    (st : CrawlState) (h : st.url_queue = []) :
    crawlLoop env mp fuel st = some st := by
  cases fuel <;> simp [crawlLoop, h]

lemma length_dropWhile_le (pr : Char → Bool) (l : Str) :
    (l.dropWhile pr).length ≤ l.length := by
  induction l with
  | nil => exact Nat.le_refl 0
  | cons x xs ih =>
    rw [List.dropWhile_cons]
    split
    · exact Nat.le_trans ih (by simp)
    · simp

lemma pyStrip_length_le (s : Str) : (pyStrip s).length ≤ s.length := by
  unfold pyStrip
  rw [List.length_reverse]
  calc ((s.dropWhile isPySpace).reverse.dropWhile isPySpace).length
      ≤ (s.dropWhile isPySpace).reverse.length := length_dropWhile_le _ _
    _ = (s.dropWhile isPySpace).length := List.length_reverse _
    _ ≤ s.length := length_dropWhile_le _ _

lemma contains_iff_mem' {α : Type} [BEq α] [LawfulBEq α] {l : List α} {a : α} :
    l.contains a = true ↔ a ∈ l := by
  induction l with
  | nil => simp [List.contains]
  | cons x xs ih => simp [List.contains_cons, ih]

lemma wfPath_stripSlash {p : Str} (hp : wfPath p) : wfPath (stripSlash p) := by
  obtain ⟨hp1, hp2⟩ := hp
  unfold stripSlash
  by_cases hsl : p.getLast? = some '/'
  · rw [if_pos hsl]
    constructor
    · cases p with
      | nil => simp
      | cons x xs =>
        cases xs with
        | nil => simp [List.dropLast]
        | cons y ys =>
          have hh : ((x :: y :: ys).dropLast).head? = some x := rfl
          rw [hh]
          simpa using hp1
    · rw [List.all_eq_true] at hp2 ⊢
      intro c hc
      exact hp2 c (List.dropLast_subset _ hc)
  · rw [if_neg hsl]
    exact ⟨hp1, hp2⟩

/- ---------------------------------------------------------------------
   Claim theorems.
--------------------------------------------------------------------- -/

/-- Claim C1 (corrected).  Concrete run refuting disjointness: under an
environment in which every fetch raises, the crawl of the single seed URL
ends with that URL in both `visited_urls` and `failed_urls` (line 253 adds
it to `failed`, line 364 then adds it to `visited`), so
`visited ∩ failed = ∅` is false. -/
theorem C1_counterexample :
    crawlLoop envFail 1000 2 (startState [uSupport]) = some stC1 ∧
    ¬ ∀ u ∈ stC1.visited_urls, u ∉ stC1.failed_urls := by
  constructor
  · decide
  · intro hdis
    exact hdis uSupport (by decide) (by decide)

/-- Claim C1 (amended): the visited and failed sets are not disjoint;
instead, at the end of any crawl run every URL in the output PageRecord
sequence is in `visited_urls`, and every URL in `failed_urls` is also in
`visited_urls` (failed URLs are marked visited too). -/
theorem C1_amended_visited_superset :
    ∀ (env : CrawlEnv) (mp fuel : Nat) (q : List Str) (st' : CrawlState),
      crawlLoop env mp fuel (startState q) = some st' →
      (∀ r ∈ st'.scraped_data, r.url ∈ st'.visited_urls) ∧
      (∀ u ∈ st'.failed_urls, u ∈ st'.visited_urls) := by
  intro env mp fuel q st' h
  have hinv := crawlLoop_inv env mp fuel _ st' (crawlInv_start q) h
  exact ⟨hinv.2.1, hinv.2.2⟩

/-- Witness for C1's amended theorem at the concrete `envFail` run. -/
theorem C1_witness : uSupport ∈ stC1.visited_urls :=
  (C1_amended_visited_superset envFail 1000 2 [uSupport] stC1 (by decide)).2
    uSupport (by decide)

/-- Claim C4 (confirmed).  Stopping the driver loop at any iteration
boundary (the point where an operator cancel takes effect) still allows
`save_data` to build a CrawlSummary from the partial state: with 3
successes and 1 failure it reports `total_pages_scraped = 3` and
`failed_urls_count = 1`, and the partial PageRecords are carried over
unchanged (never discarded). -/
theorem C4_partial_summary :
    ∀ (env : CrawlEnv) (mp k : Nat) (q : List Str) (base : Str) (now : Nat)
      (st : CrawlState),
      crawlSteps env mp k (startState q) = st →
      st.scraped_data.length = 3 →
      st.failed_urls.length = 1 →
      (save_data base now st).total_pages_scraped = 3 ∧
      (save_data base now st).failed_urls_count = 1 ∧
      (save_data base now st).support_pages = st.scraped_data := by
  intro env mp k q base now st hrun h3 h1
  exact ⟨by simp [save_data, h3], by simp [save_data, h1], rfl⟩

/-- Witness for C4: a concrete four-URL run under `envC4` really does end
with 3 successes and 1 failure after 4 iterations, and the summary built
from the cut-off state reports 3 and 1. -/
theorem C4_witness :
    (save_data uSupport 0
        (crawlSteps envC4 1000 4 (startState [uA, uB, uC, uD]))).total_pages_scraped = 3 ∧
    (save_data uSupport 0
        (crawlSteps envC4 1000 4 (startState [uA, uB, uC, uD]))).failed_urls_count = 1 ∧
    (save_data uSupport 0
        (crawlSteps envC4 1000 4 (startState [uA, uB, uC, uD]))).support_pages =
      (crawlSteps envC4 1000 4 (startState [uA, uB, uC, uD])).scraped_data :=
  C4_partial_summary envC4 1000 4 [uA, uB, uC, uD] uSupport 0 _ rfl
    (by decide) (by decide)

/-- Claim C5 (confirmed).  Whenever the driver loop exits on its own:
with an empty frontier it exits immediately (even though `maxPages` was
not reached); if it exits with a nonempty frontier then
`scraped_count = maxPages` exactly; and `scraped_count` always equals the
number of successful PageRecords (failed and insufficient-content pages
do not count toward the cap). -/
theorem C5_termination :
    ∀ (env : CrawlEnv) (mp fuel : Nat) (st st' : CrawlState),
      st.scraped_count ≤ mp →
      crawlLoop env mp fuel st = some st' →
      (st.url_queue = [] → st' = st) ∧
      (st'.url_queue = [] ∨ st'.scraped_count = mp) ∧
      (st.scraped_count = st.scraped_data.length →
        st'.scraped_count = st'.scraped_data.length) := by
  intro env mp fuel st st' hle h
  refine ⟨?_, ?_, ?_⟩
  · intro hq
    have h2 := crawlLoop_empty env mp fuel st hq
    rw [h] at h2
    exact Option.some.inj h2
  · rcases crawlLoop_exit fuel env mp st st' h with hq | hcnt
    · exact Or.inl hq
    · exact Or.inr
        (Nat.le_antisymm (crawlLoop_count_le fuel env mp st st' hle h) hcnt)
  · intro hcd
    exact crawlLoop_count_eq_data fuel env mp st st' hcd h

/-- Witness for C5: with `maxPages = 1` and two queued URLs under `envOk`,
the loop exits after exactly one success with the second URL still in the
frontier. -/
theorem C5_witness : stC5.url_queue = [] ∨ stC5.scraped_count = 1 :=
  (C5_termination envOk 1 1 (startState [uSupport, uFaq]) stC5
    (by decide) (by decide)).2.1

/-- Claim C7 (confirmed).  No URL appears more than once in the output
PageRecord sequence of a crawl run, even when the frontier contains
duplicate entries: the pop-time visited check guarantees at most one
PageRecord per canonical URL. -/
theorem C7_nodup_output :
    ∀ (env : CrawlEnv) (mp fuel : Nat) (q : List Str) (st' : CrawlState),
      crawlLoop env mp fuel (startState q) = some st' →
      (st'.scraped_data.map PageRecord.url).Nodup := by
  intro env mp fuel q st' h
  exact (crawlLoop_inv env mp fuel _ st' (crawlInv_start q) h).1

/-- Witness for C7 on a frontier that contains the same URL twice: the
output contains it once. -/
theorem C7_witness : (stC7.scraped_data.map PageRecord.url).Nodup :=
  C7_nodup_output envOk 1000 3 [uSupport, uSupport] stC7 (by decide)

/-- Claim C10 (confirmed).  Every popped URL that is actually processed
(not skipped as a stale duplicate) is added to `visited_urls` regardless
of outcome, and at the end of any crawl run every URL in `failed_urls`
is also in `visited_urls`. -/
theorem C10_visited_marking :
    (∀ (env : CrawlEnv) (st : CrawlState) (url : Str) (rest : List Str),
      st.url_queue = url :: rest → normOf url ∉ st.visited_urls →
      normOf url ∈ (crawlStep env st).visited_urls) ∧
    (∀ (env : CrawlEnv) (mp fuel : Nat) (q : List Str) (st' : CrawlState),
      crawlLoop env mp fuel (startState q) = some st' →
      ∀ u ∈ st'.failed_urls, u ∈ st'.visited_urls) := by
  constructor
  · intro env st url rest hq hv
    simp only [crawlStep, hq]
    rw [if_neg (by simpa using hv)]
    rcases hs : scrape_page_content env { st with url_queue := rest }
        (normOf url) with ⟨st2, r?⟩
    cases r? <;> simp [List.mem_insert_iff]
  · intro env mp fuel q st' h
    exact (crawlLoop_inv env mp fuel _ st' (crawlInv_start q) h).2.2

/-- Witness for C10: a concrete failing step marks the URL visited, and in
the finished `envFail` run the failed seed is in `visited_urls`. -/
theorem C10_witness :
    normOf uSupport ∈ (crawlStep envFail (startState [uSupport])).visited_urls ∧
    uSupport ∈ stC1.visited_urls :=
  ⟨C10_visited_marking.1 envFail (startState [uSupport]) uSupport [] rfl
      (by decide),
   C10_visited_marking.2 envFail 1000 2 [uSupport] stC1 (by decide)
      uSupport (by decide)⟩

/-- Claim C2 (corrected).  Boundary refutation: under `env50` the fetch of
the seed succeeds and the cleaned text has length exactly 50 — not
shorter than the 50-character floor — yet Extract returns null, because
the code's gate (line 238) requires length strictly greater than 50. -/
theorem C2_counterexample :
    (env50.fetch uSupport).isSome = true ∧
    (pyStrip (finalText env50 uSupport ⟨[], [], c50⟩)).length = 50 ∧
    (scrape_page_content env50 (startState []) uSupport).2 = none := by
  refine ⟨by decide, by decide, by decide⟩

/-- Claim C2 (amended).  On a fetch/parse error Extract returns null and
adds the URL to `failed_urls`; on a successful fetch it never touches
`failed_urls` (and never touches `visited_urls` — marking visited is the
caller's move), and a PageRecord is returned exactly when the stripped
cleaned text is strictly longer than 50 characters (text of length
exactly 50 yields the insufficient-content null). -/
theorem C2_amended_extract_gate :
    ∀ (env : CrawlEnv) (st : CrawlState) (url : Str),
      (env.fetch url = none →
        scrape_page_content env st url =
          ({ st with failed_urls := st.failed_urls.insert url }, none)) ∧
      (∀ pf, env.fetch url = some pf →
        (scrape_page_content env st url).1.failed_urls = st.failed_urls ∧
        (scrape_page_content env st url).1.visited_urls = st.visited_urls ∧
        ((scrape_page_content env st url).2.isSome = true ↔
          50 < (pyStrip (finalText env url pf)).length)) := by
  intro env st url
  refine ⟨fun h => scrape_fetch_none env st url h, ?_⟩
  intro pf h
  refine ⟨?_, scrape_visited env st url, ?_⟩
  · rw [scrape_fetch_some env st url pf h]
    split
    · exact enqueueNew_failed _ _
    · exact enqueueNew_failed _ _
  · rw [scrape_fetch_some env st url pf h]
    by_cases hgate : 50 < (pyStrip (finalText env url pf)).length
    · have hne : (finalText env url pf).isEmpty = false := by
        cases hft : finalText env url pf with
        | nil =>
          rw [hft] at hgate
          exact absurd hgate (by decide)
        | cons a as => rfl
      rw [if_pos (by simp [hne, hgate])]
      simp [hgate]
    · rw [if_neg (by simp [hgate])]
      simp [hgate]

/-- Witness for C2's amended theorem: the error branch under `envFail`
marks the URL failed, and the success branch under `envOk` (60-character
text) yields a PageRecord. -/
theorem C2_witness :
    scrape_page_content envFail (startState []) uSupport =
      ({ startState [] with
          failed_urls := (startState []).failed_urls.insert uSupport }, none) ∧
    (scrape_page_content envOk (startState []) uSupport).2.isSome = true :=
  ⟨(C2_amended_extract_gate envFail (startState []) uSupport).1 rfl,
   ((C2_amended_extract_gate envOk (startState []) uSupport).2
      ⟨[], [], c60⟩ rfl).2.2.mpr (by decide)⟩

/-- Claim C3 (corrected).  Refutation of "purely structural": the same URL
with the same structure is accepted under an empty crawl state but
rejected once it is in `visited_urls` — `is_support_url` consults crawl
state (lines 75 and 83). -/
theorem C3_counterexample :
    is_support_url (startState []) uFaq = true ∧
    is_support_url (CrawlState.mk [] [uFaq] [] [] 0) uFaq = false := by
  exact ⟨by decide, by decide⟩

/-- Claim C3 (amended).  For every parseable URL, `IsInScope` returns true
iff the host equals `www.angelone.in`, the path starts with `/support`,
and additionally the canonical URL is in neither `visited_urls` nor
`failed_urls` — the check is structural plus terminal-set membership, so
it does consult crawl state. -/
theorem C3_amended_scope_characterization :
    ∀ (st : CrawlState) (url nu : Str),
      normalize_url url = some nu →
      (is_support_url st url = true ↔
        ((urlparse nu).netloc = "www.angelone.in".data ∧
         List.IsPrefix "/support".data (urlparse nu).path ∧
         nu ∉ st.visited_urls ∧ nu ∉ st.failed_urls)) := by
  intro st url nu h
  have hne : ¬url = [] := by
    intro he
    rw [he] at h
    simp [normalize_url] at h
  unfold is_support_url
  rw [if_neg hne, h]
  show (if nu ∈ st.visited_urls then false
      else ((urlparse nu).netloc == "www.angelone.in".data &&
        "/support".data.isPrefixOf (urlparse nu).path &&
        !st.failed_urls.contains nu)) = true ↔
    ((urlparse nu).netloc = "www.angelone.in".data ∧
     List.IsPrefix "/support".data (urlparse nu).path ∧
     nu ∉ st.visited_urls ∧ nu ∉ st.failed_urls)
  by_cases hv : nu ∈ st.visited_urls
  · rw [if_pos hv]
    constructor
    · intro hfalse
      cases hfalse
    · rintro ⟨-, -, hnv, -⟩
      exact absurd hv hnv
  · rw [if_neg hv]
    constructor
    · intro htrue
      simp only [Bool.and_eq_true, beq_iff_eq, Bool.not_eq_true'] at htrue
      refine ⟨htrue.1.1, List.isPrefixOf_iff_prefix.mp htrue.1.2, hv, ?_⟩
      intro hm
      have hc := contains_iff_mem'.mpr hm
      rw [htrue.2] at hc
      cases hc
    · rintro ⟨hnet, hpre, -, hnf⟩
      have hcon : st.failed_urls.contains nu = false := by
        rcases Bool.eq_false_or_eq_true (st.failed_urls.contains nu) with ht | hf
        · exact absurd (contains_iff_mem'.mp ht) hnf
        · exact hf
      have hp' : "/support".data.isPrefixOf (urlparse nu).path = true :=
        List.isPrefixOf_iff_prefix.mpr hpre
      simp [hnet, hp', hcon, hnf]

/-- Witness for C3's amended characterization at a concrete in-scope URL
and the empty crawl state. -/
theorem C3_witness : is_support_url (startState []) uFaq = true :=
  (C3_amended_scope_characterization (startState []) uFaq uFaq
      (by decide)).mpr ⟨by decide, by decide, by decide, by decide⟩

/-- Claim C6 (corrected).  Refutation of "a URL whose path is exactly `/`
keeps its slash": the normalized string always contains `scheme://host`,
so its length exceeds 1 and the trailing-slash strip (line 62) fires on
the root path as well. -/
theorem C6_counterexample :
    normalize_url "https://site/".data = some "https://site".data ∧
    normalize_url "https://site/".data ≠ some "https://site/".data := by
  exact ⟨by decide, by decide⟩

/-- Claim C6 (amended).  For every well-formed `scheme://host/path?q#f`
or `scheme://host/path` URL (lowercase scheme, nonempty slash-free host,
path free of `#?;`), Canonicalize strips the fragment and the query
string and strips a single trailing slash whenever the string ends with
one — including when the path is exactly `/` (the root slash is NOT
kept, since the whole normalized string is always longer than one
character). -/
theorem C6_amended_canonicalize :
    (∀ s n p q f : Str, wfScheme s → wfNetloc n → wfPath p → wfQuery q →
      wfFrag f →
      normalize_url
          (s ++ ':' :: '/' :: '/' :: (n ++ (p ++ '?' :: (q ++ '#' :: f)))) =
        some (s ++ ':' :: '/' :: '/' :: (n ++ stripSlash p))) ∧
    (∀ s n p : Str, wfScheme s → wfNetloc n → wfPath p →
      normalize_url (s ++ ':' :: '/' :: '/' :: (n ++ p)) =
        some (s ++ ':' :: '/' :: '/' :: (n ++ stripSlash p))) := by
  constructor
  · intro s n p q f hs hn hp hq hf
    unfold normalize_url
    rw [if_neg (concat_ne_nil s n (p ++ '?' :: (q ++ '#' :: f))),
      normCore_concat_qf s n p q f hs hn hp hq hf, hs.2.2]
  · intro s n p hs hn hp
    unfold normalize_url
    rw [if_neg (concat_ne_nil s n p), normCore_concat s n p hs hn hp, hs.2.2]

/-- Witness for C6's amended theorem: the spec's own example URL with a
query and a fragment canonicalizes to the bare path. -/
theorem C6_witness :
    normalize_url "https://site/support/faq?x=1#top".data =
      some "https://site/support/faq".data := by
  have h := C6_amended_canonicalize.1 "https".data "site".data
      "/support/faq".data "x=1".data "top".data
      (by decide) (by decide) (by decide) (by decide) (by decide)
  have he : "https://site/support/faq?x=1#top".data =
      "https".data ++ ':' :: '/' :: '/' :: ("site".data ++
        ("/support/faq".data ++ '?' :: ("x=1".data ++ '#' :: "top".data))) := by
    decide
  rw [he, h]
  decide

/-- Claim C8 (confirmed).  When a rendering driver is available and the
cleaned static text is shorter than 200 characters, Extract re-fetches
through the rendered path and uses the rendered text iff it is strictly
longer than the static text; and whatever text wins is exactly what the
returned PageRecord carries as `content` (with its length). -/
theorem C8_rendered_fallback :
    ∀ (env : CrawlEnv) (st : CrawlState) (url : Str) (pf : PageFetch),
      env.hasDriver = true →
      env.fetch url = some pf →
      (clean_text pf.rawContent).length < 200 →
      (finalText env url pf =
        if (clean_text pf.rawContent).length <
            (scrape_with_selenium env url).length
        then scrape_with_selenium env url
        else clean_text pf.rawContent) ∧
      (∀ st2 r, scrape_page_content env st url = (st2, some r) →
        r.content = finalText env url pf ∧
        r.content_length = (finalText env url pf).length) := by
  intro env st url pf hd hf hlen
  constructor
  · simp only [finalText]
    split
    · by_cases hlt : (clean_text pf.rawContent).length <
          (scrape_with_selenium env url).length
      · have hne : (scrape_with_selenium env url).isEmpty = false := by
          cases hsel : scrape_with_selenium env url with
          | nil =>
            rw [hsel] at hlt
            simp at hlt
          | cons a as => rfl
        simp [hne, hlt]
      · simp [hlt]
    · rename_i hcond
      exfalso
      apply hcond
      simp [hd, hlen]
  · intro st2 r hsc
    rw [scrape_fetch_some env st url pf hf] at hsc
    rcases Bool.eq_false_or_eq_true
        (!(finalText env url pf).isEmpty &&
          decide (50 < (pyStrip (finalText env url pf)).length)) with hgt | hgf
    · rw [if_pos hgt] at hsc
      have h2 := congrArg Prod.snd hsc
      simp only [Option.some.injEq] at h2
      rw [← h2]
      exact ⟨rfl, rfl⟩
    · rw [if_neg (by simp [hgf])] at hsc
      simp at hsc

set_option maxRecDepth 8000 in
/-- Witness for C8 at the spec's own numbers: 150 characters of static
text, 400 characters of rendered text — the rendered text wins and the
PageRecord carries the 400-character content. -/
theorem C8_witness :
    finalText env400 uSupport pf150 = c400 ∧
    (scrape_page_content env400 (startState []) uSupport).2.map
        PageRecord.content = some c400 := by
  have h := C8_rendered_fallback env400 (startState []) uSupport pf150
    rfl rfl (by decide)
  refine ⟨?_, by decide⟩
  rw [h.1]
  decide

/-- Claim C9 (corrected).  Refutation of unconditional idempotence: the
code strips only one trailing slash per call, so
`https://site//` canonicalizes to `https://site/`, which canonicalizes
again to `https://site` — `Canonicalize ∘ Canonicalize ≠ Canonicalize`
at this parseable input. -/
theorem C9_counterexample :
    (normalize_url "https://site//".data).bind normalize_url ≠
      normalize_url "https://site//".data ∧
    (normalize_url "https://site//".data).bind normalize_url =
      some "https://site".data ∧
    normalize_url "https://site//".data = some "https://site/".data := by
  refine ⟨by decide, by decide, by decide⟩

/-- Claim C9 (amended).  Canonicalization is idempotent on every
well-formed `scheme://host/path` URL (lowercase scheme, nonempty
slash-free host, path free of `#?;`) whose path, after one trailing
slash is stripped, does not still end in a slash; for paths ending in a
double slash the second application strips a further slash. -/
theorem C9_amended_idempotent :
    ∀ s n p : Str, wfScheme s → wfNetloc n → wfPath p →
      (stripSlash p).getLast? ≠ some '/' →
      (normalize_url (s ++ ':' :: '/' :: '/' :: (n ++ p))).bind normalize_url =
        normalize_url (s ++ ':' :: '/' :: '/' :: (n ++ p)) := by
  intro s n p hs hn hp hss
  have h1 : normalize_url (s ++ ':' :: '/' :: '/' :: (n ++ p)) =
      some (s ++ ':' :: '/' :: '/' :: (n ++ stripSlash p)) := by
    unfold normalize_url
    rw [if_neg (concat_ne_nil s n p), normCore_concat s n p hs hn hp, hs.2.2]
  rw [h1]
  show normalize_url (s ++ ':' :: '/' :: '/' :: (n ++ stripSlash p)) =
    some (s ++ ':' :: '/' :: '/' :: (n ++ stripSlash p))
  unfold normalize_url
  rw [if_neg (concat_ne_nil s n (stripSlash p)),
    normCore_concat s n (stripSlash p) hs hn (wfPath_stripSlash hp), hs.2.2]
  have hfix : stripSlash (stripSlash p) = stripSlash p := by
    rw [show stripSlash (stripSlash p) =
        (if (stripSlash p).getLast? = some '/' then (stripSlash p).dropLast
         else stripSlash p) from rfl,
      if_neg hss]
  rw [hfix]

/-- Witness for C9's amended theorem: canonicalizing the canonical FAQ
URL is a fixed point. -/
theorem C9_witness :
    (normalize_url "https://site/support/faq".data).bind normalize_url =
      normalize_url "https://site/support/faq".data := by
  have h := C9_amended_idempotent "https".data "site".data "/support/faq".data
    (by decide) (by decide) (by decide) (by decide)
  have he : "https://site/support/faq".data =
      "https".data ++ ':' :: '/' :: '/' :: ("site".data ++ "/support/faq".data) := by
    decide
  rw [he]
  exact h

